import Mathlib

/-!
# Shallow embedding of the sardine-rs SRD wire codec and cipher glue

Byte buffers are `List Nat` (each element a byte value `< 256` where the
Rust type `u8` guarantees it).  Multi-byte integers are little-endian, as
in the source (`byteorder::LittleEndian`).  Fallible Rust functions
(`Result`, slice panics) are embedded as `Option`.

The authoritative source tree is `sardine/src/message_types`
(`srd_accept.rs`, `srd_delegate.rs`).  Items of this repository that those
files use but that are not under `src/` (`expand_start`, `compute_mac`,
`SrdBlob`, the constants module) are modelled from the spec and marked so
in their doc comments.  External crates (AES, ChaCha, HMAC) are injected
as function parameters, mirroring the spec's external-interface section.
-/

/-- Little-endian encoding of `n` on `w` bytes, as written by
`byteorder::WriteBytesExt` (`write_u8`, `write_u16`, `write_u32`). -/
def toLE : Nat → Nat → List Nat
  | 0, _ => []
  | w + 1, n => n % 256 :: toLE w (n / 256)

/-- Little-endian decoding of a byte list, as read by
`byteorder::ReadBytesExt`. -/
def fromLE : List Nat → Nat
  | [] => 0
  | b :: bs => b + 256 * fromLE bs

/-- Read exactly `k` bytes from the front of the buffer
(`std::io::Read::read_exact` on a cursor); fails if fewer remain. -/
def readBytes (k : Nat) (buf : List Nat) : Option (List Nat × List Nat) :=
  if k ≤ buf.length then some (buf.take k, buf.drop k) else none

/-- Read a `w`-byte little-endian unsigned integer from the front of the
buffer (`read_u8` / `read_u16` / `read_u32` with `LittleEndian`). -/
def readUInt (w : Nat) (buf : List Nat) : Option (Nat × List Nat) :=
  match readBytes w buf with
  | none => none
  | some (bs, rest) => some (fromLE bs, rest)

/-- Modelled from the spec: the magic signature `0x1C35F427`, identical in
every message (constant `SRD_SIGNATURE` lives in a module not under
`src/`). -/
def SRD_SIGNATURE : Nat := 0x1C35F427

/-- Modelled from the spec: message id of ACCEPT (kind 3 in the message
table). -/
def SRD_ACCEPT_MSG_ID : Nat := 3

/-- Modelled from the spec: message id of DELEGATE (kind 5 in the message
table). -/
def SRD_DELEGATE_MSG_ID : Nat := 5

/-- Modelled from the spec: the MAC flag bit in the 16-bit flags field.
The spec does not pin its numeric value; none of the verified claims
depend on it. -/
def SRD_FLAG_MAC : Nat := 1

/-- Modelled from the spec: the CBT flag bit in the 16-bit flags field.
The spec does not pin its numeric value; none of the verified claims
depend on it. -/
def SRD_FLAG_CBT : Nat := 2

/-- The `SrdAccept` struct of `sardine/src/message_types/srd_accept.rs`.
`u32`/`u16`/`u8` fields become `Nat` (bounds appear as validity
predicates); `Vec<u8>` and `[u8; 32]` become `List Nat`. -/
structure SrdAccept where
  signature : Nat
  packet_type : Nat
  seq_num : Nat
  flags : Nat
  cipher : Nat
  key_size : Nat
  reserved : Nat
  public_key : List Nat
  nonce : List Nat
  cbt : List Nat
  mac : List Nat
deriving DecidableEq

/-- The `SrdDelegate` struct of
`sardine/src/message_types/srd_delegate.rs`. -/
structure SrdDelegate where
  signature : Nat
  packet_type : Nat
  seq_num : Nat
  flags : Nat
  size : Nat
  encrypted_blob : List Nat
  mac : List Nat
deriving DecidableEq

/-- `SrdAccept::write_inner_buffer`: serialize every field except the MAC
trailer, in source order, little-endian. -/
def SrdAccept.write_inner_buffer (m : SrdAccept) : List Nat :=
  toLE 4 m.signature ++ toLE 1 m.packet_type ++ toLE 1 m.seq_num ++
    toLE 2 m.flags ++ toLE 4 m.cipher ++ toLE 2 m.key_size ++
    toLE 2 m.reserved ++ m.public_key ++ m.nonce ++ m.cbt

/-- `SrdAccept::write_to`: the inner buffer followed by the 32-byte MAC. -/
def SrdAccept.write_to (m : SrdAccept) : List Nat :=
  m.write_inner_buffer ++ m.mac

/-- `SrdAccept::read_from`: parse the fields in source order; the public
key is read with `read_exact` into a vector of `key_size` bytes.  The
returned second component is the unread remainder (the cursor position). -/
def SrdAccept.read_from (buffer : List Nat) : Option (SrdAccept × List Nat) :=
  match readUInt 4 buffer with
  | none => none
  | some (signature, b) =>
  match readUInt 1 b with
  | none => none
  | some (packet_type, b) =>
  match readUInt 1 b with
  | none => none
  | some (seq_num, b) =>
  match readUInt 2 b with
  | none => none
  | some (flags, b) =>
  match readUInt 4 b with
  | none => none
  | some (cipher, b) =>
  match readUInt 2 b with
  | none => none
  | some (key_size, b) =>
  match readUInt 2 b with
  | none => none
  | some (reserved, b) =>
  match readBytes key_size b with
  | none => none
  | some (public_key, b) =>
  match readBytes 32 b with
  | none => none
  | some (nonce, b) =>
  match readBytes 32 b with
  | none => none
  | some (cbt, b) =>
  match readBytes 32 b with
  | none => none
  | some (mac, b) =>
    some (⟨signature, packet_type, seq_num, flags, cipher, key_size, reserved,
           public_key, nonce, cbt, mac⟩, b)

/-- `SrdAccept::set_mac`: `self.mac.clone_from_slice(mac)`; panics (here:
`none`) unless the slice has the length of the destination, 32. -/
def SrdAccept.set_mac (m : SrdAccept) (mac : List Nat) : Option SrdAccept :=
  if mac.length = 32 then some { m with mac := mac } else none

/-- `SrdDelegate::write_inner_buffer`. -/
def SrdDelegate.write_inner_buffer (m : SrdDelegate) : List Nat :=
  toLE 4 m.signature ++ toLE 1 m.packet_type ++ toLE 1 m.seq_num ++
    toLE 2 m.flags ++ toLE 4 m.size ++ m.encrypted_blob

/-- `SrdDelegate::write_to`: the inner buffer followed by the 32-byte
MAC. -/
def SrdDelegate.write_to (m : SrdDelegate) : List Nat :=
  m.write_inner_buffer ++ m.mac

/-- `SrdDelegate::read_from`: the encrypted blob is read with
`read_exact` into a vector of `size` bytes. -/
def SrdDelegate.read_from (buffer : List Nat) : Option (SrdDelegate × List Nat) :=
  match readUInt 4 buffer with
  | none => none
  | some (signature, b) =>
  match readUInt 1 b with
  | none => none
  | some (packet_type, b) =>
  match readUInt 1 b with
  | none => none
  | some (seq_num, b) =>
  match readUInt 2 b with
  | none => none
  | some (flags, b) =>
  match readUInt 4 b with
  | none => none
  | some (size, b) =>
  match readBytes size b with
  | none => none
  | some (blob, b) =>
  match readBytes 32 b with
  | none => none
  | some (mac, b) =>
    some (⟨signature, packet_type, seq_num, flags, size, blob, mac⟩, b)

/-- `SrdDelegate::set_mac`: as for `SrdAccept`. -/
def SrdDelegate.set_mac (m : SrdDelegate) (mac : List Nat) : Option SrdDelegate :=
  if mac.length = 32 then some { m with mac := mac } else none

/-- Validity of an `SrdAccept` value: each numeric field fits the width of
its Rust integer type, the fixed-size arrays have length 32, and the
public key has the length implied by `key_size` (the length `read_from`
consumes, `key_size` bytes). -/
def SrdAccept.Valid (m : SrdAccept) : Prop :=
  m.signature < 256 ^ 4 ∧ m.packet_type < 256 ^ 1 ∧ m.seq_num < 256 ^ 1 ∧
    m.flags < 256 ^ 2 ∧ m.cipher < 256 ^ 4 ∧ m.key_size < 256 ^ 2 ∧
    m.reserved < 256 ^ 2 ∧ m.public_key.length = m.key_size ∧
    m.nonce.length = 32 ∧ m.cbt.length = 32 ∧ m.mac.length = 32

instance (m : SrdAccept) : Decidable m.Valid := by
  unfold SrdAccept.Valid; infer_instance

/-- Validity of an `SrdDelegate` value: numeric fields fit their widths,
the MAC has length 32, and the blob has the length declared by `size`. -/
def SrdDelegate.Valid (m : SrdDelegate) : Prop :=
  m.signature < 256 ^ 4 ∧ m.packet_type < 256 ^ 1 ∧ m.seq_num < 256 ^ 1 ∧
    m.flags < 256 ^ 2 ∧ m.size < 256 ^ 4 ∧
    m.encrypted_blob.length = m.size ∧ m.mac.length = 32

instance (m : SrdDelegate) : Decidable m.Valid := by
  unfold SrdDelegate.Valid; infer_instance

/-! ### Basic lemmas about the byte-level readers and writers -/

theorem toLE_length (w n : Nat) : (toLE w n).length = w := by
  induction w generalizing n with
  | zero => rfl
  | succ k ih => simp [toLE, ih]

theorem readBytes_append (k : Nat) (xs rest : List Nat) (h : xs.length = k) :
    readBytes k (xs ++ rest) = some (xs, rest) := by
  subst h
  simp [readBytes, List.take_left, List.drop_left]

theorem readBytes_exact (k : Nat) (xs : List Nat) (h : xs.length = k) :
    readBytes k xs = some (xs, []) := by
  have := readBytes_append k xs [] h
  simpa using this

theorem fromLE_toLE (w n : Nat) (h : n < 256 ^ w) : fromLE (toLE w n) = n := by
  induction w generalizing n with
  | zero =>
    simp [toLE, fromLE]
    omega
  | succ k ih =>
    have hdiv : n / 256 < 256 ^ k := by
      rw [Nat.div_lt_iff_lt_mul (by norm_num : 0 < 256)]
      rw [pow_succ] at h
      omega
    simp [toLE, fromLE, ih (n / 256) hdiv]
    omega

theorem readUInt_append (w n : Nat) (rest : List Nat) (h : n < 256 ^ w) :
    readUInt w (toLE w n ++ rest) = some (n, rest) := by
  simp [readUInt, readBytes_append w (toLE w n) rest (toLE_length w n),
    fromLE_toLE w n h]

/-! ### Claim C1: round-trip framing -/

/-- Claim C1: round-trip framing.  For every valid `SrdAccept` (public
key length matching the width implied by `key_size`) and every valid
`SrdDelegate` (blob length equal to `size`), `read_from` applied to the
bytes of `write_to` returns the original message, MAC trailer included,
with the whole buffer consumed. -/
theorem srd_roundtrip_framing :
    (∀ m : SrdAccept, m.Valid →
      SrdAccept.read_from m.write_to = some (m, [])) ∧
    (∀ m : SrdDelegate, m.Valid →
      SrdDelegate.read_from m.write_to = some (m, [])) := by
  constructor
  · rintro ⟨sig, pt, sq, fl, ci, ks, rv, pk, nn, cb, mc⟩
      ⟨h1, h2, h3, h4, h5, h6, h7, h8, h9, h10, h11⟩
    simp only at h1 h2 h3 h4 h5 h6 h7 h8 h9 h10 h11
    simp only [SrdAccept.write_to, SrdAccept.write_inner_buffer,
      SrdAccept.read_from, List.append_assoc,
      readUInt_append _ _ _ h1, readUInt_append _ _ _ h2,
      readUInt_append _ _ _ h3, readUInt_append _ _ _ h4,
      readUInt_append _ _ _ h5, readUInt_append _ _ _ h6,
      readUInt_append _ _ _ h7, readBytes_append _ _ _ h8,
      readBytes_append _ _ _ h9, readBytes_append _ _ _ h10,
      readBytes_exact _ _ h11]
  · rintro ⟨sig, pt, sq, fl, sz, blob, mc⟩ ⟨h1, h2, h3, h4, h5, h6, h7⟩
    simp only at h1 h2 h3 h4 h5 h6 h7
    simp only [SrdDelegate.write_to, SrdDelegate.write_inner_buffer,
      SrdDelegate.read_from, List.append_assoc,
      readUInt_append _ _ _ h1, readUInt_append _ _ _ h2,
      readUInt_append _ _ _ h3, readUInt_append _ _ _ h4,
      readUInt_append _ _ _ h5, readBytes_append _ _ _ h6,
      readBytes_exact _ _ h7]

/-- Witness for C1: the round trip evaluated at a concrete ACCEPT and a
concrete DELEGATE message. -/
theorem srd_roundtrip_framing_witness :
    SrdAccept.read_from (SrdAccept.write_to
      ⟨SRD_SIGNATURE, 3, 2, 1, 1, 2, 0, [7, 8], List.replicate 32 4,
       List.replicate 32 5, List.replicate 32 6⟩) =
      some (⟨SRD_SIGNATURE, 3, 2, 1, 1, 2, 0, [7, 8], List.replicate 32 4,
       List.replicate 32 5, List.replicate 32 6⟩, []) ∧
    SrdDelegate.read_from (SrdDelegate.write_to
      ⟨SRD_SIGNATURE, 5, 4, 1, 3, [9, 9, 9], List.replicate 32 6⟩) =
      some (⟨SRD_SIGNATURE, 5, 4, 1, 3, [9, 9, 9], List.replicate 32 6⟩, []) :=
  ⟨srd_roundtrip_framing.1 _ (by constructor <;> decide),
   srd_roundtrip_framing.2 _ (by constructor <;> decide)⟩

/-! ### Claim C9: MAC trailer placement -/

/-- Claim C9: MAC trailer placement.  For every ACCEPT and DELEGATE
message, `write_to` produces exactly the bytes of `write_inner_buffer`
followed by the `mac` field, and the inner bytes do not depend on the
`mac` field (so the MAC never appears inside the inner body). -/
theorem srd_mac_trailer_placement :
    (∀ (m : SrdAccept) (x : List Nat),
       m.write_to = m.write_inner_buffer ++ m.mac ∧
       SrdAccept.write_inner_buffer { m with mac := x } =
         m.write_inner_buffer) ∧
    (∀ (m : SrdDelegate) (x : List Nat),
       m.write_to = m.write_inner_buffer ++ m.mac ∧
       SrdDelegate.write_inner_buffer { m with mac := x } =
         m.write_inner_buffer) :=
  ⟨fun _ _ => ⟨rfl, rfl⟩, fun _ _ => ⟨rfl, rfl⟩⟩

/-! ### Claim C10: frame property of set_mac -/

/-- Claim C10: frame property of `set_mac`.  For every message and every
32-byte value, `set_mac` succeeds and changes only the `mac` field: every
other field is unchanged and `write_inner_buffer` yields identical bytes
before and after. -/
theorem srd_set_mac_frame :
    (∀ (m : SrdAccept) (x : List Nat) (m2 : SrdAccept),
       x.length = 32 → m.set_mac x = some m2 →
       m2.mac = x ∧ m2.signature = m.signature ∧
         m2.packet_type = m.packet_type ∧ m2.seq_num = m.seq_num ∧
         m2.flags = m.flags ∧ m2.cipher = m.cipher ∧
         m2.key_size = m.key_size ∧ m2.reserved = m.reserved ∧
         m2.public_key = m.public_key ∧ m2.nonce = m.nonce ∧
         m2.cbt = m.cbt ∧
         m2.write_inner_buffer = m.write_inner_buffer) ∧
    (∀ (m : SrdDelegate) (x : List Nat) (m2 : SrdDelegate),
       x.length = 32 → m.set_mac x = some m2 →
       m2.mac = x ∧ m2.signature = m.signature ∧
         m2.packet_type = m.packet_type ∧ m2.seq_num = m.seq_num ∧
         m2.flags = m.flags ∧ m2.size = m.size ∧
         m2.encrypted_blob = m.encrypted_blob ∧
         m2.write_inner_buffer = m.write_inner_buffer) := by
  constructor
  · intro m x m2 hx hm
    rw [SrdAccept.set_mac, if_pos hx] at hm
    obtain rfl : ({ m with mac := x } : SrdAccept) = m2 := by
      simpa using hm
    exact ⟨rfl, rfl, rfl, rfl, rfl, rfl, rfl, rfl, rfl, rfl, rfl, rfl⟩
  · intro m x m2 hx hm
    rw [SrdDelegate.set_mac, if_pos hx] at hm
    obtain rfl : ({ m with mac := x } : SrdDelegate) = m2 := by
      simpa using hm
    exact ⟨rfl, rfl, rfl, rfl, rfl, rfl, rfl, rfl⟩

/-- Witness for C10: `set_mac` applied to a concrete ACCEPT and a
concrete DELEGATE message with a concrete 32-byte MAC. -/
theorem srd_set_mac_frame_witness :
    (SrdAccept.set_mac ⟨1, 2, 3, 4, 5, 6, 7, [8], [9], [10], [11]⟩
        (List.replicate 32 0) =
      some ⟨1, 2, 3, 4, 5, 6, 7, [8], [9], [10], List.replicate 32 0⟩) ∧
    SrdAccept.write_inner_buffer
        ⟨1, 2, 3, 4, 5, 6, 7, [8], [9], [10], List.replicate 32 0⟩ =
      SrdAccept.write_inner_buffer ⟨1, 2, 3, 4, 5, 6, 7, [8], [9], [10], [11]⟩ :=
  ⟨by decide,
   (srd_set_mac_frame.1 ⟨1, 2, 3, 4, 5, 6, 7, [8], [9], [10], [11]⟩
      (List.replicate 32 0)
      ⟨1, 2, 3, 4, 5, 6, 7, [8], [9], [10], List.replicate 32 0⟩
      (by decide) (by decide)).2.2.2.2.2.2.2.2.2.2.2⟩

/-! ### Items of the repository outside src: expand_start, compute_mac -/

/-- Modelled from the spec: `expand_start` (defined in the
`message_types` module file, which is not under `src/`).  Per the spec, a
public key shorter than the target width is left-padded with zeros to
that width; the call site in `SrdAccept::new` passes `key_size as usize`
as the width. -/
def expand_start (buffer : List Nat) (new_size : Nat) : List Nat :=
  if buffer.length < new_size then
    List.replicate (new_size - buffer.length) 0 ++ buffer
  else buffer

/-- Modelled from the spec: `compute_mac` (a provided method of the
`SrdPacket` trait, defined outside `src/`).  The MAC input is the
byte-exact concatenation of the inner bytes of every previous message,
followed by this message's own inner bytes; the MAC is
`HMAC-SHA256(integrity_key, transcript)` and is stored with `set_mac`.
The HMAC primitive is an injected external collaborator and is passed as
the function parameter `hmac`; previous messages are represented by their
inner-byte serializations. -/
def SrdAccept.compute_mac (m : SrdAccept)
    (hmac : List Nat → List Nat → List Nat)
    (previous_messages : List (List Nat)) (integrity_key : List Nat) :
    Option SrdAccept :=
  m.set_mac
    (hmac integrity_key (previous_messages.flatten ++ m.write_inner_buffer))

/-- Modelled from the spec: `compute_mac` for DELEGATE, as for ACCEPT. -/
def SrdDelegate.compute_mac (m : SrdDelegate)
    (hmac : List Nat → List Nat → List Nat)
    (previous_messages : List (List Nat)) (integrity_key : List Nat) :
    Option SrdDelegate :=
  m.set_mac
    (hmac integrity_key (previous_messages.flatten ++ m.write_inner_buffer))

/-- `SrdAccept::new`: expand the public key to `key_size` bytes, set the
MAC flag (plus the CBT flag and value when a CBT is supplied), zero the
reserved field, then compute the MAC over the transcript.  The HMAC
primitive is passed as `hmac` (external collaborator). -/
def SrdAccept.new (hmac : List Nat → List Nat → List Nat)
    (seq_num cipher key_size : Nat) (public_key nonce : List Nat)
    (cbt_opt : Option (List Nat)) (previous_messages : List (List Nat))
    (integrity_key : List Nat) : Option SrdAccept :=
  let pk := expand_start public_key key_size
  let fc : Nat × List Nat :=
    match cbt_opt with
    | none => (SRD_FLAG_MAC, List.replicate 32 0)
    | some c => (SRD_FLAG_MAC ||| SRD_FLAG_CBT, c)
  SrdAccept.compute_mac
    { signature := SRD_SIGNATURE, packet_type := SRD_ACCEPT_MSG_ID,
      seq_num := seq_num, flags := fc.1, cipher := cipher,
      key_size := key_size, reserved := 0, public_key := pk,
      nonce := nonce, cbt := fc.2, mac := List.replicate 32 0 }
    hmac previous_messages integrity_key

/-! ### General parse shape of read_from (helper lemmas) -/

/-- Helper: `SrdAccept.read_from` on a buffer laid out field by field
returns exactly those fields and leaves the remainder untouched. -/
theorem srdAccept_parse_eq (sig pt sq fl ci ks rv : Nat)
    (pk nn cb mc rest : List Nat) (h1 : sig < 256 ^ 4) (h2 : pt < 256 ^ 1)
    (h3 : sq < 256 ^ 1) (h4 : fl < 256 ^ 2) (h5 : ci < 256 ^ 4)
    (h6 : ks < 256 ^ 2) (h7 : rv < 256 ^ 2) (h8 : pk.length = ks)
    (h9 : nn.length = 32) (h10 : cb.length = 32) (h11 : mc.length = 32) :
    SrdAccept.read_from
        (toLE 4 sig ++ toLE 1 pt ++ toLE 1 sq ++ toLE 2 fl ++ toLE 4 ci ++
          toLE 2 ks ++ toLE 2 rv ++ pk ++ nn ++ cb ++ mc ++ rest) =
      some (⟨sig, pt, sq, fl, ci, ks, rv, pk, nn, cb, mc⟩, rest) := by
  simp only [SrdAccept.read_from, List.append_assoc,
    readUInt_append _ _ _ h1, readUInt_append _ _ _ h2,
    readUInt_append _ _ _ h3, readUInt_append _ _ _ h4,
    readUInt_append _ _ _ h5, readUInt_append _ _ _ h6,
    readUInt_append _ _ _ h7, readBytes_append _ _ _ h8,
    readBytes_append _ _ _ h9, readBytes_append _ _ _ h10,
    readBytes_append _ _ _ h11]

/-- Helper: `SrdDelegate.read_from` on a buffer laid out field by field
returns exactly those fields and leaves the remainder untouched. -/
theorem srdDelegate_parse_eq (sig pt sq fl sz : Nat)
    (blob mc rest : List Nat) (h1 : sig < 256 ^ 4) (h2 : pt < 256 ^ 1)
    (h3 : sq < 256 ^ 1) (h4 : fl < 256 ^ 2) (h5 : sz < 256 ^ 4)
    (h6 : blob.length = sz) (h7 : mc.length = 32) :
    SrdDelegate.read_from
        (toLE 4 sig ++ toLE 1 pt ++ toLE 1 sq ++ toLE 2 fl ++ toLE 4 sz ++
          blob ++ mc ++ rest) =
      some (⟨sig, pt, sq, fl, sz, blob, mc⟩, rest) := by
  simp only [SrdDelegate.read_from, List.append_assoc,
    readUInt_append _ _ _ h1, readUInt_append _ _ _ h2,
    readUInt_append _ _ _ h3, readUInt_append _ _ _ h4,
    readUInt_append _ _ _ h5, readBytes_append _ _ _ h6,
    readBytes_append _ _ _ h7]

/-! ### Claim C3: decoder rejection rule -/

/-- An ACCEPT frame whose signature is 0 (not `0x1C35F427`), whose packet
type byte is 0 (outside 1..6) and whose reserved field is 7 (non-zero);
`key_size` is 0, so the public key region is empty. -/
def badAcceptBuf : List Nat :=
  toLE 4 0 ++ toLE 1 0 ++ toLE 1 9 ++ toLE 2 0 ++ toLE 4 0 ++ toLE 2 0 ++
    toLE 2 7 ++ List.replicate 32 1 ++ List.replicate 32 2 ++
    List.replicate 32 3

/-- A DELEGATE frame whose signature is 0 and whose packet type byte is 0;
`size` is 0, so the blob region is empty. -/
def badDelegateBuf : List Nat :=
  toLE 4 0 ++ toLE 1 0 ++ toLE 1 9 ++ toLE 2 0 ++ toLE 4 0 ++
    List.replicate 32 3

/-- Counterexample to C3: the decoders perform no validation.  A buffer
whose signature differs from `0x1C35F427`, whose packet-type byte is 0
(not in 1..6) and whose reserved field is 7 (non-zero) is successfully
decoded by `SrdAccept.read_from`, and likewise a bad-signature,
bad-packet-type buffer by `SrdDelegate.read_from`. -/
theorem srd_decoder_rejection_counterexample :
    SrdAccept.read_from badAcceptBuf =
      some (⟨0, 0, 9, 0, 0, 0, 7, [], List.replicate 32 1,
             List.replicate 32 2, List.replicate 32 3⟩, []) ∧
    SrdDelegate.read_from badDelegateBuf =
      some (⟨0, 0, 9, 0, 0, [], List.replicate 32 3⟩, []) ∧
    (0 : Nat) ≠ SRD_SIGNATURE ∧ ¬ (1 ≤ (0 : Nat) ∧ (0 : Nat) ≤ 6) ∧
    (7 : Nat) ≠ 0 := by
  refine ⟨by decide, by decide, by decide, by decide, by decide⟩

/-- Claim C3 as amended: `SrdAccept.read_from` and
`SrdDelegate.read_from` perform no validation at all.  Whatever the
signature, packet-type and reserved values, a buffer long enough to
supply every field decodes successfully, the fields being returned
verbatim; `Malformed` rejection of such defects is not done by
`read_from` (it lives in the message dispatcher, outside these
functions).  The only failure mode of `read_from` is a buffer too short
for a declared length. -/
theorem srd_decoder_no_rejection (sig pt sq fl ci ks rv sz : Nat)
    (pk nn cb mc blob rest : List Nat) (h1 : sig < 256 ^ 4)
    (h2 : pt < 256 ^ 1) (h3 : sq < 256 ^ 1) (h4 : fl < 256 ^ 2)
    (h5 : ci < 256 ^ 4) (h6 : ks < 256 ^ 2) (h7 : rv < 256 ^ 2)
    (h8 : sz < 256 ^ 4) (h9 : pk.length = ks) (h10 : nn.length = 32)
    (h11 : cb.length = 32) (h12 : mc.length = 32) (h13 : blob.length = sz) :
    SrdAccept.read_from
        (toLE 4 sig ++ toLE 1 pt ++ toLE 1 sq ++ toLE 2 fl ++ toLE 4 ci ++
          toLE 2 ks ++ toLE 2 rv ++ pk ++ nn ++ cb ++ mc ++ rest) =
      some (⟨sig, pt, sq, fl, ci, ks, rv, pk, nn, cb, mc⟩, rest) ∧
    SrdDelegate.read_from
        (toLE 4 sig ++ toLE 1 pt ++ toLE 1 sq ++ toLE 2 fl ++ toLE 4 sz ++
          blob ++ mc ++ rest) =
      some (⟨sig, pt, sq, fl, sz, blob, mc⟩, rest) :=
  ⟨srdAccept_parse_eq sig pt sq fl ci ks rv pk nn cb mc rest
     h1 h2 h3 h4 h5 h6 h7 h9 h10 h11 h12,
   srdDelegate_parse_eq sig pt sq fl sz blob mc rest h1 h2 h3 h4 h8 h13 h12⟩

/-- Witness for the amended C3, at a defective concrete input: signature
0, packet type 0, reserved 7. -/
theorem srd_decoder_no_rejection_witness :
    SrdAccept.read_from
        (toLE 4 0 ++ toLE 1 0 ++ toLE 1 9 ++ toLE 2 0 ++ toLE 4 0 ++
          toLE 2 1 ++ toLE 2 7 ++ [5] ++ List.replicate 32 1 ++
          List.replicate 32 2 ++ List.replicate 32 3 ++ [9]) =
      some (⟨0, 0, 9, 0, 0, 1, 7, [5], List.replicate 32 1,
             List.replicate 32 2, List.replicate 32 3⟩, [9]) ∧
    SrdDelegate.read_from
        (toLE 4 0 ++ toLE 1 0 ++ toLE 1 9 ++ toLE 2 0 ++ toLE 4 2 ++
          [4, 4] ++ List.replicate 32 3 ++ [9]) =
      some (⟨0, 0, 9, 0, 2, [4, 4], List.replicate 32 3⟩, [9]) :=
  srd_decoder_no_rejection 0 0 9 0 0 1 7 2 [5] (List.replicate 32 1)
    (List.replicate 32 2) (List.replicate 32 3) [4, 4] [9]
    (by decide) (by decide) (by decide) (by decide) (by decide) (by decide)
    (by decide) (by decide) (by decide) (by decide) (by decide) (by decide)
    (by decide)

/-! ### Claim C4: public-key field width -/

theorem expand_start_eq (pk : List Nat) (ks : Nat) (h : pk.length ≤ ks) :
    expand_start pk ks = List.replicate (ks - pk.length) 0 ++ pk := by
  unfold expand_start
  split
  · rfl
  · have hlen : pk.length = ks := by omega
    simp [hlen]

/-- The all-zero HMAC stand-in used by concrete evaluations: a function
with the output length of HMAC-SHA256. -/
def hmacZero : List Nat → List Nat → List Nat := fun _ _ => List.replicate 32 0

/-- An ACCEPT frame laid out as the spec describes it: `key_size = 256`
and a `key_size/8 = 32`-byte public-key region (total 144 bytes). -/
def specAcceptBuf : List Nat :=
  toLE 4 SRD_SIGNATURE ++ toLE 1 3 ++ toLE 1 2 ++ toLE 2 0 ++ toLE 4 1 ++
    toLE 2 256 ++ toLE 2 0 ++ List.replicate 32 0 ++ List.replicate 32 0 ++
    List.replicate 32 0 ++ List.replicate 32 0

set_option maxRecDepth 8000 in
/-- Counterexample to C4: with `key_size = 256` the code does not use a
`key_size/8 = 32`-byte public-key field.  A frame with a 32-byte key
region fails to decode (`read_from` wants 256 key bytes), and
`SrdAccept::new` pads a 1-byte public key to 256 bytes, not 32. -/
theorem srd_accept_key_width_counterexample :
    SrdAccept.read_from specAcceptBuf = none ∧
    (SrdAccept.new hmacZero 2 0 256 [1] (List.replicate 32 0) none []
        []).map (fun a => a.public_key.length) = some 256 := by
  refine ⟨by decide, by decide⟩

/-- Claim C4 as amended: in ACCEPT framing the public key occupies
exactly `key_size` bytes — the `key_size` field is used directly as a
byte count, not divided by 8.  `SrdAccept::new` left-pads a shorter
public key with zeros to `key_size` bytes, and `read_from` consumes
exactly `key_size` bytes for the public key. -/
theorem srd_accept_key_width :
    (∀ (hmac : List Nat → List Nat → List Nat) (seq ci ks : Nat)
       (pk nn : List Nat) (cbtopt : Option (List Nat))
       (prev : List (List Nat)) (ik : List Nat) (a : SrdAccept),
       pk.length ≤ ks →
       SrdAccept.new hmac seq ci ks pk nn cbtopt prev ik = some a →
       a.public_key = List.replicate (ks - pk.length) 0 ++ pk ∧
         a.public_key.length = ks) ∧
    (∀ (ks : Nat) (pkb nn cb mc rest : List Nat), ks < 256 ^ 2 →
       pkb.length = ks → nn.length = 32 → cb.length = 32 → mc.length = 32 →
       SrdAccept.read_from
           (toLE 4 SRD_SIGNATURE ++ toLE 1 SRD_ACCEPT_MSG_ID ++ toLE 1 2 ++
             toLE 2 SRD_FLAG_MAC ++ toLE 4 1 ++ toLE 2 ks ++ toLE 2 0 ++
             pkb ++ nn ++ cb ++ mc ++ rest) =
         some (⟨SRD_SIGNATURE, SRD_ACCEPT_MSG_ID, 2, SRD_FLAG_MAC, 1, ks, 0,
                pkb, nn, cb, mc⟩, rest)) := by
  constructor
  · intro hmac seq ci ks pk nn cbtopt prev ik a hle hnew
    simp only [SrdAccept.new, SrdAccept.compute_mac, SrdAccept.set_mac] at hnew
    split at hnew
    · obtain rfl : _ = a := by simpa using hnew
      refine ⟨expand_start_eq pk ks hle, ?_⟩
      simp only [expand_start_eq pk ks hle]
      simp only [List.length_append, List.length_replicate]
      omega
    · exact Option.noConfusion hnew
  · intro ks pkb nn cb mc rest h6 h8 h9 h10 h11
    exact srdAccept_parse_eq _ _ _ _ _ _ _ _ _ _ _ _ (by decide) (by decide)
      (by decide) (by decide) (by decide) h6 (by decide) h8 h9 h10 h11

/-- Witness for the amended C4: a 1-byte public key with `key_size = 4`
is padded to 4 bytes by `new`, and a 4-byte key region is consumed by
`read_from`. -/
theorem srd_accept_key_width_witness :
    ((SrdAccept.new hmacZero 2 0 4 [1] (List.replicate 32 0) none []
         []).map (fun a => a.public_key) = some [0, 0, 0, 1]) ∧
    SrdAccept.read_from
        (toLE 4 SRD_SIGNATURE ++ toLE 1 SRD_ACCEPT_MSG_ID ++ toLE 1 2 ++
          toLE 2 SRD_FLAG_MAC ++ toLE 4 1 ++ toLE 2 4 ++ toLE 2 0 ++
          [1, 2, 3, 4] ++ List.replicate 32 5 ++ List.replicate 32 6 ++
          List.replicate 32 7 ++ []) =
      some (⟨SRD_SIGNATURE, SRD_ACCEPT_MSG_ID, 2, SRD_FLAG_MAC, 1, 4, 0,
             [1, 2, 3, 4], List.replicate 32 5, List.replicate 32 6,
             List.replicate 32 7⟩, []) := by
  constructor
  · have h := (srd_accept_key_width.1 hmacZero 2 0 4 [1] (List.replicate 32 0)
      none [] [] ⟨SRD_SIGNATURE, SRD_ACCEPT_MSG_ID, 2, SRD_FLAG_MAC, 0, 4, 0,
        [0, 0, 0, 1], List.replicate 32 0, List.replicate 32 0,
        List.replicate 32 0⟩ (by decide) (by decide)).1
    simpa using congrArg (Option.map (fun a => a.public_key)) (by decide :
      SrdAccept.new hmacZero 2 0 4 [1] (List.replicate 32 0) none [] [] =
        some ⟨SRD_SIGNATURE, SRD_ACCEPT_MSG_ID, 2, SRD_FLAG_MAC, 0, 4, 0,
          [0, 0, 0, 1], List.replicate 32 0, List.replicate 32 0,
          List.replicate 32 0⟩)
  · exact srd_accept_key_width.2 4 [1, 2, 3, 4] (List.replicate 32 5)
      (List.replicate 32 6) (List.replicate 32 7) [] (by decide) (by decide)
      (by decide) (by decide) (by decide)


/-! ### Symmetric cipher glue of srd_delegate.rs -/

/-- Bytewise XOR of two blocks (`zipWith`, truncating at the shorter
operand; all uses are on equal-length 16-byte blocks). -/
def xorB (a b : List Nat) : List Nat := List.zipWith (fun x y => x ^^^ y) a b

/-- CBC encryption over 16-byte blocks, as performed by the external
collaborator `aes_frast::aes_with_operation_mode::cbc_enc`: each
plaintext block is XORed with the previous ciphertext block (the IV for
the first) and passed through the block cipher.  The AES-256 block
encryption (key schedule applied) is injected as `enc`; the fuel is the
remaining byte count, which strictly decreases per block. -/
def cbc_encAux (enc : List Nat → List Nat) :
    Nat → List Nat → List Nat → List Nat
  | 0, _, _ => []
  | _, _, [] => []
  | fuel + 1, prev, data =>
    enc (xorB prev (data.take 16)) ++
      cbc_encAux enc fuel (enc (xorB prev (data.take 16))) (data.drop 16)

/-- CBC decryption over 16-byte blocks
(`aes_frast::aes_with_operation_mode::cbc_dec`): each ciphertext block is
deciphered then XORed with the previous ciphertext block (the IV for the
first). -/
def cbc_decAux (dec : List Nat → List Nat) :
    Nat → List Nat → List Nat → List Nat
  | 0, _, _ => []
  | _, _, [] => []
  | fuel + 1, prev, data =>
    xorB prev (dec (data.take 16)) ++
      cbc_decAux dec fuel (data.take 16) (data.drop 16)

/-- `encrypt_data` (AES-256-CBC path of srd_delegate.rs): reject data
whose length is not a multiple of 16 (`SrdError::InvalidDataLength`),
then CBC-encrypt under `&iv[0..16]` (the slice panics — `none` — if the
IV is shorter than 16 bytes).  The AES-256 block function (the key
schedule `setkey_enc_auto` composed with block encryption, an external
collaborator) is injected as `enc`. -/
def encrypt_data (enc : List Nat → List Nat → List Nat)
    (data key iv : List Nat) : Option (List Nat) :=
  if data.length % 16 ≠ 0 then none
  else if iv.length < 16 then none
  else some (cbc_encAux (enc key) data.length (iv.take 16) data)

/-- `decrypt_data` (AES-256-CBC path): same length guard, CBC
decryption under the injected block decryption `dec`. -/
def decrypt_data (dec : List Nat → List Nat → List Nat)
    (data key iv : List Nat) : Option (List Nat) :=
  if data.length % 16 ≠ 0 then none
  else if iv.length < 16 then none
  else some (cbc_decAux (dec key) data.length (iv.take 16) data)

/-- XOR of a byte list against a keystream starting at position `i`. -/
def xorStream (s : Nat → Nat) : Nat → List Nat → List Nat
  | _, [] => []
  | i, b :: bs => (b ^^^ s i) :: xorStream s (i + 1) bs

/-- `encrypt_data` (XChaCha20 path of srd_delegate.rs):
`key_ref.copy_from_slice(key)` panics — `none` — unless the key is
exactly 32 bytes, and `&iv[0..24]` panics if the IV is shorter than 24
bytes; then the data is XORed against the XChaCha20 keystream.  The
keystream generator (a function of key, 24-byte nonce and byte position,
an external collaborator) is injected as `ks`. -/
def encrypt_data_xchacha (ks : List Nat → List Nat → Nat → Nat)
    (data key iv : List Nat) : Option (List Nat) :=
  if key.length = 32 then
    if 24 ≤ iv.length then some (xorStream (ks key (iv.take 24)) 0 data)
    else none
  else none

/-- `decrypt_data` (XChaCha20 path): as a stream cipher, decryption is
the same operation as encryption (the source literally calls
`encrypt_data`). -/
def decrypt_data_xchacha (ks : List Nat → List Nat → Nat → Nat)
    (data key iv : List Nat) : Option (List Nat) :=
  encrypt_data_xchacha ks data key iv

theorem xorB_cancel (b : List Nat) : ∀ p : List Nat, b.length ≤ p.length →
    xorB p (xorB p b) = b := by
  induction b with
  | nil => intro p h; simp [xorB]
  | cons x xs ih =>
    intro p h
    cases p with
    | nil => simp at h
    | cons y ys =>
      simp only [xorB, List.zipWith_cons_cons] at ih ⊢
      rw [← Nat.xor_assoc, Nat.xor_self, Nat.zero_xor]
      exact congrArg (x :: ·) (ih ys (by simpa using h))

theorem cbc_encAux_cons (enc : List Nat → List Nat) (fuel : Nat)
    (prev : List Nat) (d : Nat) (ds : List Nat) :
    cbc_encAux enc (fuel + 1) prev (d :: ds) =
      enc (xorB prev ((d :: ds).take 16)) ++
        cbc_encAux enc fuel (enc (xorB prev ((d :: ds).take 16)))
          ((d :: ds).drop 16) := rfl

theorem cbc_decAux_nil (dec : List Nat → List Nat) (fd : Nat)
    (prev : List Nat) : cbc_decAux dec fd prev [] = [] := by
  cases fd <;> rfl

theorem cbc_decAux_ne_nil (dec : List Nat → List Nat) (fuel : Nat)
    (prev data : List Nat) (h : data ≠ []) :
    cbc_decAux dec (fuel + 1) prev data =
      xorB prev (dec (data.take 16)) ++
        cbc_decAux dec fuel (data.take 16) (data.drop 16) := by
  cases data with
  | nil => exact absurd rfl h
  | cons x xs => rfl

theorem cbc_decAux_append (dec : List Nat → List Nat) (fd : Nat)
    (prev c rest : List Nat) (hc : c.length = 16) :
    cbc_decAux dec (fd + 1) prev (c ++ rest) =
      xorB prev (dec c) ++ cbc_decAux dec fd c rest := by
  have hne : c ++ rest ≠ [] := by
    intro h0
    have h1 := congrArg List.length h0
    rw [List.length_append, hc] at h1
    simp at h1
  rw [cbc_decAux_ne_nil dec fd prev (c ++ rest) hne]
  have htl : (c ++ rest).take 16 = c := by
    rw [← hc]; exact List.take_left c rest
  have hdl : (c ++ rest).drop 16 = rest := by
    rw [← hc]; exact List.drop_left c rest
  rw [htl, hdl]

theorem cbc_encAux_length (enc : List Nat → List Nat)
    (henc : ∀ b, b.length = 16 → (enc b).length = 16) :
    ∀ (fe : Nat) (prev data : List Nat), data.length ≤ fe →
      data.length % 16 = 0 → prev.length = 16 →
      (cbc_encAux enc fe prev data).length = data.length := by
  intro fe
  induction fe with
  | zero =>
    intro prev data hfe _ _
    have hd : data = [] := List.length_eq_zero.mp (by omega)
    subst hd; rfl
  | succ k ih =>
    intro prev data hfe hmod hprev
    cases data with
    | nil => rfl
    | cons d ds =>
      simp only [List.length_cons] at hfe hmod ⊢
      have htake : ((d :: ds).take 16).length = 16 := by
        simp only [List.length_take, List.length_cons]
        omega
      have hxor : (xorB prev ((d :: ds).take 16)).length = 16 := by
        simp only [xorB, List.length_zipWith, hprev, htake]
        omega
      have hc : (enc (xorB prev ((d :: ds).take 16))).length = 16 :=
        henc _ hxor
      have hdroplen : ((d :: ds).drop 16).length = ds.length + 1 - 16 := by
        simp only [List.length_drop, List.length_cons]
      rw [cbc_encAux_cons, List.length_append, hc,
        ih _ ((d :: ds).drop 16) (by rw [hdroplen]; omega)
          (by rw [hdroplen]; omega) hc, hdroplen]
      omega

theorem cbc_roundtrip (enc dec : List Nat → List Nat)
    (hinv : ∀ b, b.length = 16 → dec (enc b) = b)
    (henc : ∀ b, b.length = 16 → (enc b).length = 16) :
    ∀ (fe fd : Nat) (prev data : List Nat), data.length ≤ fe →
      data.length % 16 = 0 → prev.length = 16 →
      (cbc_encAux enc fe prev data).length ≤ fd →
      cbc_decAux dec fd prev (cbc_encAux enc fe prev data) = data := by
  intro fe
  induction fe with
  | zero =>
    intro fd prev data hfe _ _ _
    have hd : data = [] := List.length_eq_zero.mp (by omega)
    subst hd
    exact cbc_decAux_nil dec fd prev
  | succ k ih =>
    intro fd prev data hfe hmod hprev hfd
    cases data with
    | nil => exact cbc_decAux_nil dec fd prev
    | cons d ds =>
      simp only [List.length_cons] at hfe hmod
      have htake : ((d :: ds).take 16).length = 16 := by
        simp only [List.length_take, List.length_cons]
        omega
      have hxor : (xorB prev ((d :: ds).take 16)).length = 16 := by
        simp only [xorB, List.length_zipWith, hprev, htake]
        omega
      have hc : (enc (xorB prev ((d :: ds).take 16))).length = 16 :=
        henc _ hxor
      have hdroplen : ((d :: ds).drop 16).length = ds.length + 1 - 16 := by
        simp only [List.length_drop, List.length_cons]
      have hrestlen := cbc_encAux_length enc henc k
        (enc (xorB prev ((d :: ds).take 16))) ((d :: ds).drop 16)
        (by rw [hdroplen]; omega) (by rw [hdroplen]; omega) hc
      rw [hdroplen] at hrestlen
      rw [cbc_encAux_cons] at hfd
      rw [List.length_append, hc, hrestlen] at hfd
      obtain ⟨fd0, rfl⟩ : ∃ fd0, fd = fd0 + 1 := ⟨fd - 1, by omega⟩
      rw [cbc_encAux_cons,
        cbc_decAux_append dec fd0 prev _ _ hc,
        hinv _ hxor,
        xorB_cancel ((d :: ds).take 16) prev (by simp [htake, hprev]),
        ih fd0 (enc (xorB prev ((d :: ds).take 16))) ((d :: ds).drop 16)
          (by rw [hdroplen]; omega) (by rw [hdroplen]; omega) hc
          (by rw [hrestlen]; omega)]
      exact List.take_append_drop 16 (d :: ds)

theorem xorStream_cancel (s : Nat → Nat) :
    ∀ (data : List Nat) (i : Nat),
      xorStream s i (xorStream s i data) = data := by
  intro data
  induction data with
  | nil => intro i; rfl
  | cons b bs ih =>
    intro i
    show (b ^^^ s i ^^^ s i) :: xorStream s (i + 1) (xorStream s (i + 1) bs) =
      b :: bs
    rw [Nat.xor_assoc, Nat.xor_self, Nat.xor_zero, ih (i + 1)]

/-! ### Claim C5: cipher round-trip -/

/-- Claim C5: cipher round-trip.  AES-256-CBC path: for every 32-byte
key, every IV of at least 16 bytes and every plaintext whose length is a
multiple of 16, decrypting the encryption returns the plaintext, provided
the injected AES block functions satisfy the external primitive's
contract (mutually inverse, length-preserving on 16-byte blocks).
XChaCha20 path: for every 32-byte key, every IV of at least 24 bytes and
every plaintext of any length, decryption (the same keystream XOR as
encryption) returns the plaintext. -/
theorem srd_cipher_roundtrip :
    (∀ (enc dec : List Nat → List Nat → List Nat) (key iv data : List Nat),
       (∀ k b, b.length = 16 → dec k (enc k b) = b) →
       (∀ k b, b.length = 16 → (enc k b).length = 16) →
       key.length = 32 → 16 ≤ iv.length → data.length % 16 = 0 →
       (encrypt_data enc data key iv).bind
           (fun c => decrypt_data dec c key iv) = some data) ∧
    (∀ (ks : List Nat → List Nat → Nat → Nat) (key iv data : List Nat),
       key.length = 32 → 24 ≤ iv.length →
       (encrypt_data_xchacha ks data key iv).bind
           (fun c => decrypt_data_xchacha ks c key iv) = some data) := by
  constructor
  · intro enc dec key iv data hinv henc _ hiv hmod
    have hivlen : (iv.take 16).length = 16 := by
      simp only [List.length_take]
      omega
    have hclen := cbc_encAux_length (enc key) (henc key) data.length
      (iv.take 16) data (le_refl _) hmod hivlen
    rw [encrypt_data, if_neg (by omega), if_neg (by omega)]
    show decrypt_data dec
        (cbc_encAux (enc key) data.length (iv.take 16) data) key iv = some data
    rw [decrypt_data, if_neg (by rw [hclen]; omega), if_neg (by omega), hclen]
    rw [cbc_roundtrip (enc key) (dec key) (hinv key) (henc key) data.length
      data.length (iv.take 16) data (le_refl _) hmod hivlen (by rw [hclen])]
  · intro ks key iv data hkey hiv
    rw [encrypt_data_xchacha, if_pos hkey, if_pos hiv]
    show decrypt_data_xchacha ks
        (xorStream (ks key (iv.take 24)) 0 data) key iv = some data
    rw [decrypt_data_xchacha, encrypt_data_xchacha, if_pos hkey, if_pos hiv,
      xorStream_cancel]

/-- Witness for C5: both round trips at concrete inputs, the AES block
functions instantiated with the identity on blocks (which satisfies the
inverse and length contracts on 16-byte blocks) and the keystream with a
constant. -/
theorem srd_cipher_roundtrip_witness :
    (encrypt_data (fun _ b => b) (List.replicate 16 2) (List.replicate 32 0)
        (List.replicate 32 1)).bind
      (fun c => decrypt_data (fun _ b => b) c (List.replicate 32 0)
        (List.replicate 32 1)) = some (List.replicate 16 2) ∧
    (encrypt_data_xchacha (fun _ _ _ => 7) [1, 2, 3] (List.replicate 32 0)
        (List.replicate 32 1)).bind
      (fun c => decrypt_data_xchacha (fun _ _ _ => 7) c (List.replicate 32 0)
        (List.replicate 32 1)) = some [1, 2, 3] :=
  ⟨srd_cipher_roundtrip.1 (fun _ b => b) (fun _ b => b) (List.replicate 32 0)
     (List.replicate 32 1) (List.replicate 16 2) (fun _ _ _ => rfl)
     (fun _ _ h => h) (by decide) (by decide) (by decide),
   srd_cipher_roundtrip.2 (fun _ _ _ => 7) (List.replicate 32 0)
     (List.replicate 32 1) [1, 2, 3] (by decide) (by decide)⟩

/-! ### Claim C6: AES length guard -/

/-- Claim C6: AES length guard.  In the AES-256-CBC path, for every IV of
at least 16 bytes (as the protocol always supplies), `encrypt_data` and
`decrypt_data` fail exactly when the input length is not a multiple of
16, and succeed on every input whose length is a multiple of 16. -/
theorem srd_aes_length_guard (enc dec : List Nat → List Nat → List Nat)
    (key iv data : List Nat) (hiv : 16 ≤ iv.length) :
    (encrypt_data enc data key iv = none ↔ ¬ data.length % 16 = 0) ∧
    (decrypt_data dec data key iv = none ↔ ¬ data.length % 16 = 0) := by
  constructor
  · rw [encrypt_data]
    by_cases h : data.length % 16 = 0
    · rw [if_neg (by omega), if_neg (by omega)]
      simp [h]
    · rw [if_pos (by omega)]
      simp [h]
  · rw [decrypt_data]
    by_cases h : data.length % 16 = 0
    · rw [if_neg (by omega), if_neg (by omega)]
      simp [h]
    · rw [if_pos (by omega)]
      simp [h]

/-- Witness for C6: the guard iff instantiated at a concrete 16-byte
input and a concrete IV. -/
theorem srd_aes_length_guard_witness :
    (encrypt_data (fun _ b => b) (List.replicate 16 2) []
        (List.replicate 16 0) = none ↔
      ¬ (List.replicate 16 2 : List Nat).length % 16 = 0) ∧
    (decrypt_data (fun _ b => b) (List.replicate 16 2) []
        (List.replicate 16 0) = none ↔
      ¬ (List.replicate 16 2 : List Nat).length % 16 = 0) :=
  srd_aes_length_guard (fun _ b => b) (fun _ b => b) [] (List.replicate 16 0)
    (List.replicate 16 2) (by decide)

theorem xorStream_length (s : Nat → Nat) :
    ∀ (data : List Nat) (i : Nat),
      (xorStream s i data).length = data.length := by
  intro data
  induction data with
  | nil => intro i; rfl
  | cons b bs ih =>
    intro i
    show (xorStream s i (b :: bs)).length = bs.length + 1
    rw [xorStream, List.length_cons, ih (i + 1)]

/-! ### The credential blob and SrdDelegate::new -/

/-- Modelled from the spec: the credential blob (`SrdBlob` of
srd_blob.rs, which is not under `src/`).  It carries a username and a
password (BasicLogon). -/
structure SrdBlob where
  username : List Nat
  password : List Nat
deriving DecidableEq

/-- Modelled from the spec: `SrdBlob::write_to` serializes the blob —
magic `0x4C425253`, payload kind `BasicLogon = 1`, 16-bit username and
password lengths, then the username and password bytes — and pads the
result to the nearest 16-byte boundary with zero bytes (the spec:
"the plaintext itself is padded by the encoder to the nearest 16-byte
boundary with zero bytes"). -/
def SrdBlob.write_to (b : SrdBlob) : List Nat :=
  let body := toLE 4 0x4C425253 ++ toLE 4 1 ++ toLE 2 b.username.length ++
    toLE 2 b.password.length ++ b.username ++ b.password
  body ++ List.replicate ((16 - body.length % 16) % 16) 0

/-- `SrdDelegate::new`: serialize the blob, encrypt it (the compiled-in
`encrypt_data` — AES or XChaCha path — is injected as `encF`), record the
ciphertext length in `size` via the wrapping narrowing cast
`encrypted_blob.len() as u32` (hence the `% 2 ^ 32`), then compute the
MAC over the transcript. -/
def SrdDelegate.new (encF : List Nat → List Nat → List Nat → Option (List Nat))
    (hmac : List Nat → List Nat → List Nat) (seq_num : Nat)
    (srd_blob : SrdBlob) (previous_messages : List (List Nat))
    (integrity_key delegation_key iv : List Nat) : Option SrdDelegate :=
  match encF srd_blob.write_to delegation_key iv with
  | none => none
  | some encrypted_blob =>
    SrdDelegate.compute_mac
      { signature := SRD_SIGNATURE, packet_type := SRD_DELEGATE_MSG_ID,
        seq_num := seq_num, flags := SRD_FLAG_MAC,
        size := encrypted_blob.length % 2 ^ 32,
        encrypted_blob := encrypted_blob,
        mac := List.replicate 32 0 }
      hmac previous_messages integrity_key

theorem srdBlob_write_to_mod16 (b : SrdBlob) :
    (SrdBlob.write_to b).length % 16 = 0 := by
  rw [SrdBlob.write_to]
  simp only [List.length_append, List.length_replicate]
  omega

/-! ### Claim C7: encoder padding -/

/-- Claim C7: encoder padding.  For every credential blob, the blob's
serialization (as produced inside `SrdDelegate::new`) is zero-padded to a
16-byte boundary, so constructing a DELEGATE under the AES-256-CBC path
succeeds whatever the blob's serialized length, for every IV of at least
16 bytes and every HMAC with 32-byte output. -/
theorem srd_delegate_encoder_padding (b : SrdBlob)
    (enc : List Nat → List Nat → List Nat)
    (hmac : List Nat → List Nat → List Nat) (seq : Nat)
    (prev : List (List Nat)) (ik dk iv : List Nat)
    (hh : ∀ k t, (hmac k t).length = 32) (hiv : 16 ≤ iv.length) :
    (SrdBlob.write_to b).length % 16 = 0 ∧
    (SrdDelegate.new (encrypt_data enc) hmac seq b prev ik dk iv).isSome := by
  refine ⟨srdBlob_write_to_mod16 b, ?_⟩
  have henc : encrypt_data enc (SrdBlob.write_to b) dk iv =
      some (cbc_encAux (enc dk) (SrdBlob.write_to b).length (iv.take 16)
        (SrdBlob.write_to b)) := by
    rw [encrypt_data, if_neg (by have := srdBlob_write_to_mod16 b; omega),
      if_neg (by omega)]
  rw [SrdDelegate.new, henc]
  simp only [SrdDelegate.compute_mac, SrdDelegate.set_mac, hh, if_true]
  rfl

/-- Witness for C7: a concrete blob whose raw serialization is 14 bytes
(not a multiple of 16) still yields a DELEGATE under the AES path. -/
theorem srd_delegate_encoder_padding_witness :
    (SrdBlob.write_to ⟨[1], [2]⟩).length % 16 = 0 ∧
    (SrdDelegate.new (encrypt_data (fun _ blk => blk)) hmacZero 4 ⟨[1], [2]⟩
        [] [] (List.replicate 32 9) (List.replicate 32 8)).isSome :=
  srd_delegate_encoder_padding ⟨[1], [2]⟩ (fun _ blk => blk) hmacZero 4 [] []
    (List.replicate 32 9) (List.replicate 32 8) (fun _ _ => rfl) (by decide)

/-! ### Claim C8: DELEGATE size field -/

/-- Counterexample to C8: `SrdDelegate::new` stores the ciphertext
length through the wrapping narrowing cast `encrypted_blob.len() as u32`
(srd_delegate.rs line 115), so a DELEGATE whose ciphertext has
`2 ^ 32 + 16` bytes (here: a `2 ^ 32`-byte username, whose padded
serialization passes unchanged through the identity cipher path) gets
`size = 16`, not the blob length. -/
theorem srd_delegate_size_field_counterexample :
    (SrdDelegate.new (fun dta _ _ => some dta) hmacZero 4
        ⟨List.replicate (2 ^ 32) 0, []⟩ [] [] [] []).map
      (fun d => (d.size, d.encrypted_blob.length)) =
      some (16, 2 ^ 32 + 16) ∧ (16 : Nat) ≠ 2 ^ 32 + 16 := by
  have key : ∀ u : List Nat, u.length = 2 ^ 32 →
      (SrdDelegate.new (fun dta _ _ => some dta) hmacZero 4 ⟨u, []⟩ [] [] []
          []).map (fun d => (d.size, d.encrypted_blob.length)) =
        some (16, 2 ^ 32 + 16) := by
    intro u hu
    have hlen : (SrdBlob.write_to ⟨u, []⟩).length = 2 ^ 32 + 16 := by
      rw [SrdBlob.write_to]
      simp only [List.length_append, List.length_replicate, toLE_length,
        List.length_nil, hu]
      norm_num
    simp only [SrdDelegate.new, SrdDelegate.compute_mac, SrdDelegate.set_mac,
      hmacZero, List.length_replicate, eq_self_iff_true, if_true,
      Option.map_some, hlen]
    norm_num
    rw [hlen]
    norm_num
  exact ⟨key (List.replicate (2 ^ 32) 0) (by rw [List.length_replicate]),
    by norm_num⟩

/-- Claim C8 as amended: every `SrdDelegate` built by `SrdDelegate::new`
has `size` equal to the byte length of `encrypted_blob` reduced modulo
`2 ^ 32` (the `as u32` cast) — hence equal to the byte length itself
whenever the ciphertext is shorter than `2 ^ 32` bytes, as every wire
message is; and that ciphertext length equals the serialized (16-byte
padded) plaintext length under the AES-256-CBC path — given the external
block cipher's length contract — and the plaintext length exactly under
the XChaCha20 path. -/
theorem srd_delegate_size_field :
    (∀ (enc : List Nat → List Nat → List Nat)
       (hmac : List Nat → List Nat → List Nat) (seq : Nat) (b : SrdBlob)
       (prev : List (List Nat)) (ik dk iv : List Nat) (d : SrdDelegate),
       (∀ k blk, blk.length = 16 → (enc k blk).length = 16) →
       SrdDelegate.new (encrypt_data enc) hmac seq b prev ik dk iv = some d →
       d.size = d.encrypted_blob.length % 2 ^ 32 ∧
         (d.encrypted_blob.length < 2 ^ 32 →
           d.size = d.encrypted_blob.length) ∧
         d.encrypted_blob.length = (SrdBlob.write_to b).length) ∧
    (∀ (ks : List Nat → List Nat → Nat → Nat)
       (hmac : List Nat → List Nat → List Nat) (seq : Nat) (b : SrdBlob)
       (prev : List (List Nat)) (ik dk iv : List Nat) (d : SrdDelegate),
       SrdDelegate.new (encrypt_data_xchacha ks) hmac seq b prev ik dk iv =
         some d →
       d.size = d.encrypted_blob.length % 2 ^ 32 ∧
         (d.encrypted_blob.length < 2 ^ 32 →
           d.size = d.encrypted_blob.length) ∧
         d.encrypted_blob.length = (SrdBlob.write_to b).length) := by
  constructor
  · intro enc hmac seq b prev ik dk iv d henc hnew
    rw [SrdDelegate.new] at hnew
    cases h : encrypt_data enc (SrdBlob.write_to b) dk iv with
    | none => rw [h] at hnew; exact Option.noConfusion hnew
    | some eb =>
      rw [h] at hnew
      simp only [SrdDelegate.compute_mac, SrdDelegate.set_mac] at hnew
      split at hnew
      · obtain rfl : _ = d := by simpa using hnew
        refine ⟨rfl, fun hlt => Nat.mod_eq_of_lt hlt, ?_⟩
        rw [encrypt_data] at h
        split at h
        · exact Option.noConfusion h
        · split at h
          · exact Option.noConfusion h
          · obtain rfl : _ = eb := by simpa using h
            rename_i hmod hiv
            show (cbc_encAux (enc dk) (SrdBlob.write_to b).length
              (iv.take 16) (SrdBlob.write_to b)).length =
                (SrdBlob.write_to b).length
            exact cbc_encAux_length (enc dk) (henc dk)
              (SrdBlob.write_to b).length (iv.take 16) (SrdBlob.write_to b)
              (le_refl _) (by omega) (by simp only [List.length_take]; omega)
      · exact Option.noConfusion hnew
  · intro ks hmac seq b prev ik dk iv d hnew
    rw [SrdDelegate.new] at hnew
    cases h : encrypt_data_xchacha ks (SrdBlob.write_to b) dk iv with
    | none => rw [h] at hnew; exact Option.noConfusion hnew
    | some eb =>
      rw [h] at hnew
      simp only [SrdDelegate.compute_mac, SrdDelegate.set_mac] at hnew
      split at hnew
      · obtain rfl : _ = d := by simpa using hnew
        refine ⟨rfl, fun hlt => Nat.mod_eq_of_lt hlt, ?_⟩
        rw [encrypt_data_xchacha] at h
        split at h
        · split at h
          · obtain rfl : _ = eb := by simpa using h
            exact xorStream_length _ (SrdBlob.write_to b) 0
          · exact Option.noConfusion h
        · exact Option.noConfusion h
      · exact Option.noConfusion hnew

/-- Witness for C8: both parts at a concrete blob (serialization
`[83, 82, 66, 76, 1, 0, 0, 0, 1, 0, 1, 0, 1, 2, 0, 0]`), the AES block
function instantiated with the identity, the IV with zeros and the
keystream with the zero constant, so that the ciphertext is the padded
plaintext itself. -/
theorem srd_delegate_size_field_witness :
    (SrdDelegate.new (encrypt_data (fun _ blk => blk)) hmacZero 4 ⟨[1], [2]⟩
        [] [] (List.replicate 32 9) (List.replicate 32 0) =
      some ⟨SRD_SIGNATURE, 5, 4, SRD_FLAG_MAC, 16,
        [83, 82, 66, 76, 1, 0, 0, 0, 1, 0, 1, 0, 1, 2, 0, 0],
        List.replicate 32 0⟩) ∧
    (SrdDelegate.size ⟨SRD_SIGNATURE, 5, 4, SRD_FLAG_MAC, 16,
        [83, 82, 66, 76, 1, 0, 0, 0, 1, 0, 1, 0, 1, 2, 0, 0],
        List.replicate 32 0⟩ =
      (SrdDelegate.encrypted_blob ⟨SRD_SIGNATURE, 5, 4, SRD_FLAG_MAC, 16,
        [83, 82, 66, 76, 1, 0, 0, 0, 1, 0, 1, 0, 1, 2, 0, 0],
        List.replicate 32 0⟩).length % 2 ^ 32 ∧
     ((SrdDelegate.encrypted_blob ⟨SRD_SIGNATURE, 5, 4, SRD_FLAG_MAC, 16,
        [83, 82, 66, 76, 1, 0, 0, 0, 1, 0, 1, 0, 1, 2, 0, 0],
        List.replicate 32 0⟩).length < 2 ^ 32 →
      SrdDelegate.size ⟨SRD_SIGNATURE, 5, 4, SRD_FLAG_MAC, 16,
        [83, 82, 66, 76, 1, 0, 0, 0, 1, 0, 1, 0, 1, 2, 0, 0],
        List.replicate 32 0⟩ =
      (SrdDelegate.encrypted_blob ⟨SRD_SIGNATURE, 5, 4, SRD_FLAG_MAC, 16,
        [83, 82, 66, 76, 1, 0, 0, 0, 1, 0, 1, 0, 1, 2, 0, 0],
        List.replicate 32 0⟩).length) ∧
     (SrdDelegate.encrypted_blob ⟨SRD_SIGNATURE, 5, 4, SRD_FLAG_MAC, 16,
        [83, 82, 66, 76, 1, 0, 0, 0, 1, 0, 1, 0, 1, 2, 0, 0],
        List.replicate 32 0⟩).length =
      (SrdBlob.write_to ⟨[1], [2]⟩).length) :=
  ⟨by decide,
   srd_delegate_size_field.1 (fun _ blk => blk) hmacZero 4 ⟨[1], [2]⟩ [] []
     (List.replicate 32 9) (List.replicate 32 0)
     ⟨SRD_SIGNATURE, 5, 4, SRD_FLAG_MAC, 16,
       [83, 82, 66, 76, 1, 0, 0, 0, 1, 0, 1, 0, 1, 2, 0, 0],
       List.replicate 32 0⟩ (fun _ _ h => h) (by decide)⟩

/-! ### Claim C2: MAC chaining over the transcript -/

/-- Claim C2: MAC chaining.  The MAC stored in a message built by
`SrdDelegate::new` (for any injected cipher path) or by `SrdAccept::new`
equals `hmac(integrity_key, T)` where `T` is the byte-exact
concatenation, in order, of the inner bytes of every previous message
followed by the new message's own inner bytes. -/
theorem srd_mac_chaining :
    (∀ (encF : List Nat → List Nat → List Nat → Option (List Nat))
       (hmac : List Nat → List Nat → List Nat) (seq : Nat) (b : SrdBlob)
       (prev : List (List Nat)) (ik dk iv : List Nat) (d : SrdDelegate),
       SrdDelegate.new encF hmac seq b prev ik dk iv = some d →
       d.mac = hmac ik (prev.flatten ++ d.write_inner_buffer)) ∧
    (∀ (hmac : List Nat → List Nat → List Nat) (seq cipher ks : Nat)
       (pk nonce : List Nat) (cbt_opt : Option (List Nat))
       (prev : List (List Nat)) (ik : List Nat) (a : SrdAccept),
       SrdAccept.new hmac seq cipher ks pk nonce cbt_opt prev ik = some a →
       a.mac = hmac ik (prev.flatten ++ a.write_inner_buffer)) := by
  constructor
  · intro encF hmac seq b prev ik dk iv d hnew
    rw [SrdDelegate.new] at hnew
    cases h : encF b.write_to dk iv with
    | none => rw [h] at hnew; exact Option.noConfusion hnew
    | some eb =>
      rw [h] at hnew
      simp only [SrdDelegate.compute_mac, SrdDelegate.set_mac] at hnew
      split at hnew
      · obtain rfl : _ = d := by simpa using hnew
        rfl
      · exact Option.noConfusion hnew
  · intro hmac seq cipher ks pk nonce cbt_opt prev ik a hnew
    simp only [SrdAccept.new, SrdAccept.compute_mac, SrdAccept.set_mac]
      at hnew
    split at hnew
    · obtain rfl : _ = a := by simpa using hnew
      rfl
    · exact Option.noConfusion hnew

/-- Witness for C2: DELEGATE built with the identity cipher path and
ACCEPT built with no CBT, both under the all-zero HMAC stand-in, with one
previous message in the transcript. -/
theorem srd_mac_chaining_witness :
    (SrdDelegate.new (fun dta _ _ => some dta) hmacZero 4 ⟨[], []⟩ [[7]] []
        [] [] =
      some ⟨SRD_SIGNATURE, 5, 4, SRD_FLAG_MAC, 16,
        [83, 82, 66, 76, 1, 0, 0, 0, 0, 0, 0, 0, 0, 0, 0, 0],
        List.replicate 32 0⟩) ∧
    SrdDelegate.mac ⟨SRD_SIGNATURE, 5, 4, SRD_FLAG_MAC, 16,
        [83, 82, 66, 76, 1, 0, 0, 0, 0, 0, 0, 0, 0, 0, 0, 0],
        List.replicate 32 0⟩ =
      hmacZero [] ([[7]].flatten ++ SrdDelegate.write_inner_buffer
        ⟨SRD_SIGNATURE, 5, 4, SRD_FLAG_MAC, 16,
          [83, 82, 66, 76, 1, 0, 0, 0, 0, 0, 0, 0, 0, 0, 0, 0],
          List.replicate 32 0⟩) ∧
    (SrdAccept.new hmacZero 2 0 2 [6] (List.replicate 32 4) none [[7]] [] =
      some ⟨SRD_SIGNATURE, 3, 2, SRD_FLAG_MAC, 0, 2, 0, [0, 6],
        List.replicate 32 4, List.replicate 32 0, List.replicate 32 0⟩) ∧
    SrdAccept.mac ⟨SRD_SIGNATURE, 3, 2, SRD_FLAG_MAC, 0, 2, 0, [0, 6],
        List.replicate 32 4, List.replicate 32 0, List.replicate 32 0⟩ =
      hmacZero [] ([[7]].flatten ++ SrdAccept.write_inner_buffer
        ⟨SRD_SIGNATURE, 3, 2, SRD_FLAG_MAC, 0, 2, 0, [0, 6],
          List.replicate 32 4, List.replicate 32 0, List.replicate 32 0⟩) :=
  ⟨by decide,
   srd_mac_chaining.1 (fun dta _ _ => some dta) hmacZero 4 ⟨[], []⟩ [[7]] []
     [] [] ⟨SRD_SIGNATURE, 5, 4, SRD_FLAG_MAC, 16,
       [83, 82, 66, 76, 1, 0, 0, 0, 0, 0, 0, 0, 0, 0, 0, 0],
       List.replicate 32 0⟩ (by decide),
   by decide,
   srd_mac_chaining.2 hmacZero 2 0 2 [6] (List.replicate 32 4) none [[7]] []
     ⟨SRD_SIGNATURE, 3, 2, SRD_FLAG_MAC, 0, 2, 0, [0, 6],
       List.replicate 32 4, List.replicate 32 0, List.replicate 32 0⟩
     (by decide)⟩
